import Mathlib

/-!
Shallow embedding of the agent decision logic of the `verbs-examples`
repository (Aave/Uniswap agent-based simulations), together with proofs of
the behavioural claims about it.

Modelling conventions:
* The external EVM engine is modelled as a record of response functions
  (`Env`).  A read that can revert is `Option`-valued, `none` standing for a
  raised `RevertError`; decoded event data is returned directly in place of
  the raw log-decoding pipeline.
* Python `int` values (balances, fixed-point prices) are `ℕ` or `ℤ`;
  Python `float` arithmetic (true division, `scipy` iterations, GBM) is
  idealised as exact arithmetic on `ℚ` (and on `ℝ` for the GBM, which uses
  `exp`/`sqrt`).  Python `int(x)` on a float is truncation towards zero
  (`pyInt`).
* Raised exceptions propagate as `none` through `Option`-valued functions;
  Python's negative list indexing, which raises `IndexError` when the list
  is too short, is `pyNeg`.
-/

set_option allowUnsafeReducibility true
attribute [local semireducible] Rat.mul Rat.inv Rat.add Rat.sub Rat.ofScientific

/-- Truncation of a rational towards zero, the semantics of Python `int(x)`
for a real argument: the truncating division of the numerator by the
denominator. -/
def pyInt (q : ℚ) : ℤ :=
  q.num.tdiv q.den

/-- Python negative indexing `l[-k]` for `k ≥ 1`: returns the element
`l[len - k]` when `k ≤ len`, and `none` (an `IndexError`) otherwise. -/
def pyNeg {α : Type} (l : List α) (k : ℕ) : Option α :=
  if 1 ≤ k ∧ k ≤ l.length then l.get? (l.length - k) else none

/-- Monadic filter over `Option`, the semantics of Python's `filter` with a
predicate that may raise: elements are tested left to right and the first
raised exception propagates. -/
def filterOptM {α : Type} (p : α → Option Bool) : List α → Option (List α)
  | [] => some []
  | x :: xs => do
    let b ← p x
    let rest ← filterOptM p xs
    pure (if b then x :: rest else rest)

/-- Transactions the agents construct and hand to the simulation driver.
Argument order follows the Python argument lists of the corresponding
contract calls. -/
inductive Tx : Type where
  | liquidationCall (sender pool collateralAsset debtAsset borrower : ℕ)
      (debtToCover : ℕ) (receiveAToken : Bool) (checked : Bool)
  | exactOutputSingle (sender router tokenIn tokenOut fee recipient deadline : ℕ)
      (amountOut : ℤ) (amountInMaximum : ℤ) (sqrtPriceLimitX96 : ℕ)
  | exactInputSingle (sender router tokenIn tokenOut fee recipient deadline : ℕ)
      (amountIn : ℤ) (amountOutMinimum : ℤ) (sqrtPriceLimitX96 : ℕ)
  | supply (sender pool asset : ℕ) (amount : ℕ) (onBehalfOf referralCode : ℕ)
  | borrow (sender pool asset : ℕ) (amount : ℤ) (interestRateMode referralCode onBehalfOf : ℕ)
  deriving DecidableEq, Repr

/-- Decoded result of `Pool.getUserAccountData`, the 6-tuple returned by the
Aave pool: indices 0..5 of the Python tuple. -/
structure AccountData : Type where
  totalCollateralBase : ℕ
  totalDebtBase : ℕ
  availableBorrowsBase : ℕ
  currentLiquidationThreshold : ℕ
  ltv : ℕ
  healthFactor : ℕ
  deriving DecidableEq, Repr

/-- The external EVM engine as seen by the agents: a record of response
functions for the contract reads the agents perform.  Addresses are `ℕ`.
`Option`-valued fields model calls that may revert (raise). -/
structure Env : Type where
  /-- `ERC20.balanceOf`: token address, holder address. -/
  balanceOf : ℕ → ℕ → ℕ
  /-- `Pool.getUserAccountData` for a user address. -/
  getUserAccountData : ℕ → AccountData
  /-- Speculative `Pool.liquidationCall` on (borrower, debtToCover); `none`
  is a `RevertError`, otherwise the decoded `LiquidationCall` event fields
  `(debtToCover, liquidatedCollateralAmount)`. -/
  liquidationCall : ℕ → ℕ → Option (ℕ × ℕ)
  /-- `QuoterV2.quoteExactOutputSingle` on (tokenIn, tokenOut, amount);
  `none` is a revert, otherwise `(amountIn, sqrtPriceX96After)`. -/
  quoteExactOutputSingle : ℕ → ℕ → ℤ → Option (ℕ × ℕ)
  /-- `QuoterV2.quoteExactInputSingle` on (tokenIn, tokenOut, amount);
  `none` is a revert, otherwise `(amountOut, sqrtPriceX96After)`. -/
  quoteExactInputSingle : ℕ → ℕ → ℤ → Option (ℕ × ℕ)
  /-- `AaveOracle.getAssetPrice` for an asset address. -/
  getAssetPrice : ℕ → ℕ
  /-- `AaveOracle.getAssetsPrices`, read off for a single asset address. -/
  getAssetsPrices : ℕ → ℕ
  /-- `UniswapV3Pool.slot0`, first component `sqrtPriceX96`. -/
  slot0SqrtPriceX96 : ℕ

/-- State of `LiquidationAgent` (simulations/agents/liquidation_agent.py):
the addresses fixed at construction and the mutable balance histories and
step counter. -/
structure LiquidationAgent : Type where
  address : ℕ
  poolAddress : ℕ
  tokenA : ℕ
  tokenB : ℕ
  decimalsTokenB : ℕ
  liquidationAddresses : List ℕ
  uniswapPoolAddress : ℕ
  quoterAddress : ℕ
  swapRouterAddress : ℕ
  uniswapFee : ℕ
  balanceDebtAsset : List ℕ
  balanceCollateralAsset : List ℕ
  step : ℕ
  deriving DecidableEq, Repr

/-- `LiquidationAgent.accountability`: speculatively runs the liquidation
call (a revert is caught and yields `false`), decodes the event, quotes the
collateral cost of buying back the covered debt on Uniswap, and declares
the liquidation profitable iff that cost is strictly below the seized
collateral.  A revert of the quoter itself is not caught and propagates. -/
def LiquidationAgent.accountability (env : Env) (a : LiquidationAgent)
    (liquidationAddress amount : ℕ) : Option Bool :=
  match env.liquidationCall liquidationAddress amount with
  | none => some false
  | some (debtToCover, liquidatedCollateralAmount) =>
    match env.quoteExactOutputSingle a.tokenA a.tokenB (debtToCover : ℤ) with
    | none => none
    | some (amountCollateralFromSwap, _) =>
      some (decide (amountCollateralFromSwap < liquidatedCollateralAmount))

/-- Head of `LiquidationAgent.update`: the agent state with the current
collateral and debt balances read from the environment and appended to the
histories. -/
def LiquidationAgent.withBalancesAppended (env : Env) (a : LiquidationAgent) :
    LiquidationAgent :=
  { a with
    balanceCollateralAsset := a.balanceCollateralAsset ++ [env.balanceOf a.tokenA a.address]
    balanceDebtAsset := a.balanceDebtAsset ++ [env.balanceOf a.tokenB a.address] }

/-- The `users_data` pass of `LiquidationAgent.update` followed by the
`risky_positions` filter: every monitored borrower paired with its account
data, kept when the health factor is below `10^18`. -/
def LiquidationAgent.riskyPositions (env : Env) (a1 : LiquidationAgent) :
    List (ℕ × AccountData) :=
  (a1.liquidationAddresses.map fun b => (b, env.getUserAccountData b)).filter
    fun x => x.2.healthFactor < 10 ^ 18

/-- The tail of `LiquidationAgent.update` that may append the hedging swap:
from the second step on, if the recorded debt-asset balance decreased by
`debt > 0` since the previous step, one `exactOutputSingle` buying back
exactly `debt` (capped by the current collateral balance) is appended after
the liquidation transactions. -/
def LiquidationAgent.hedgeAppended (env : Env) (a1 : LiquidationAgent)
    (liqTxs : List Tx) : Option (List Tx) :=
  if a1.step > 0 then do
    let prev ← pyNeg a1.balanceDebtAsset 2
    let last ← pyNeg a1.balanceDebtAsset 1
    let debt : ℤ := (prev : ℤ) - (last : ℤ)
    if debt > 0 then
      pure (liqTxs ++
        [Tx.exactOutputSingle a1.address a1.swapRouterAddress a1.tokenA a1.tokenB
          a1.uniswapFee a1.address (10 ^ 32) debt
          (env.balanceOf a1.tokenA a1.address : ℤ) 0])
    else
      pure liqTxs
  else
    pure liqTxs

/-- Body of `LiquidationAgent.update`, assembled from the pieces above in
source order: append the balance snapshots, filter the distressed
borrowers down to the profitable ones with the accountability method in
force (`acct`, resolved by dynamic dispatch in Python and overridden in
the adversarial subclass), emit one unchecked liquidation per kept
borrower, possibly append the hedging swap, and advance the step
counter. -/
def LiquidationAgent.updateWith
    (acct : Env → LiquidationAgent → ℕ → ℕ → Option Bool)
    (env : Env) (a : LiquidationAgent) : Option (LiquidationAgent × List Tx) := do
  let a1 := LiquidationAgent.withBalancesAppended env a
  let liquidatablePositions ←
    filterOptM (fun x => acct env a1 x.1 (10 ^ 32)) (LiquidationAgent.riskyPositions env a1)
  let liqTxs := liquidatablePositions.map fun x =>
    Tx.liquidationCall a1.address a1.poolAddress a1.tokenA a1.tokenB x.1 (10 ^ 32) false false
  let txs ← LiquidationAgent.hedgeAppended env a1 liqTxs
  pure ({ a1 with step := a1.step + 1 }, txs)

/-- `LiquidationAgent.record`: reads both balances from the environment and
returns them normalised by `10^18`; the agent state is untouched. -/
def LiquidationAgent.record (env : Env) (a : LiquidationAgent) :
    LiquidationAgent × (ℚ × ℚ) :=
  (a, ((env.balanceOf a.tokenA a.address : ℚ) / 10 ^ 18,
       (env.balanceOf a.tokenB a.address : ℚ) / 10 ^ 18))

/-- Repeated `update` calls of a liquidation agent, one environment snapshot
per step (the environment between steps is advanced externally). -/
def runLiquidation (acct : Env → LiquidationAgent → ℕ → ℕ → Option Bool) :
    LiquidationAgent → List Env → Option LiquidationAgent
  | a, [] => some a
  | a, env :: envs => do
    let (a', _) ← LiquidationAgent.updateWith acct env a
    runLiquidation acct a' envs

/-- State of `AdversarialLiquidationAgent`: the base agent plus the Uniswap
pool token ordering and the Aave oracle address read at construction. -/
structure AdversarialLiquidationAgent extends LiquidationAgent where
  aaveOracleAddress : ℕ
  token0Address : ℕ
  token1Address : ℕ
  deriving DecidableEq, Repr

/-- Overridden `accountability` of `AdversarialLiquidationAgent`: if the
recorded debt-asset balance increased since the previous step the agent is
long the debt asset (it has just front-run) and the liquidation is declared
profitable unconditionally; otherwise it defers to the base class.  The
accesses `balance_debt_asset[-2]`/`[-1]` raise (`none`) when fewer than two
balances have been recorded. -/
def AdversarialLiquidationAgent.accountability (env : Env) (a : LiquidationAgent)
    (liquidationAddress amount : ℕ) : Option Bool := do
  let prev ← pyNeg a.balanceDebtAsset 2
  let last ← pyNeg a.balanceDebtAsset 1
  if prev < last then
    pure true
  else
    LiquidationAgent.accountability env a liquidationAddress amount

/-- Computed `debt_to_cover` for one monitored borrower in the adversarial
front-running pass: `totalDebtBase * 10^decimals / (2 * debtAssetPrice)`,
Python float division idealised on `ℚ`. -/
def debtToCoverQ (env : Env) (a : AdversarialLiquidationAgent)
    (debtAssetPrice borrower : ℕ) : ℚ :=
  ((env.getUserAccountData borrower).totalDebtBase * 10 ^ a.decimalsTokenB : ℚ) /
    (2 * (debtAssetPrice : ℚ))

/-- Health-factor window in which the front-run makes the liquidation of a
borrower profitable: `1 < hf/10^18 < upper_bound_hf`, where the upper bound
is the squared ratio of the pool sqrt-price before and after the quoted
swap (orientation depending on the pool's token ordering). -/
def hfWindow (a : AdversarialLiquidationAgent) (sqrtPriceX96 hf sqrtPriceX96After : ℕ) : Prop :=
  let sqrtUpperBoundHf : ℚ :=
    if a.tokenB = a.token1Address then (sqrtPriceX96 : ℚ) / (sqrtPriceX96After : ℚ)
    else (sqrtPriceX96After : ℚ) / (sqrtPriceX96 : ℚ)
  1 < (hf : ℚ) / 10 ^ 18 ∧ (hf : ℚ) / 10 ^ 18 < sqrtUpperBoundHf ^ 2

instance (a : AdversarialLiquidationAgent) (sp hf spa : ℕ) :
    Decidable (hfWindow a sp hf spa) :=
  And.decidable

/-- Body of the front-running loop of `AdversarialLiquidationAgent.update`
for one borrower: computes the debt to cover, and when it is positive makes
exactly one quoter call and contributes the debt to the accumulated total
iff the borrower's health factor lies in the profitable window.  Returns
`(contribution, number of quoter calls)`; `none` is a quoter revert. -/
def frontrunStep (env : Env) (a : AdversarialLiquidationAgent)
    (debtAssetPrice sqrtPriceX96 borrower : ℕ) : Option (ℚ × ℕ) :=
  let hf := (env.getUserAccountData borrower).healthFactor
  let debtToCover := debtToCoverQ env a debtAssetPrice borrower
  if 0 < debtToCover then
    match env.quoteExactOutputSingle a.tokenA a.tokenB (pyInt debtToCover) with
    | none => none
    | some (_, sqrtPriceX96After) =>
      if hfWindow a sqrtPriceX96 hf sqrtPriceX96After then some (debtToCover, 1)
      else some (0, 1)
  else
    some (0, 0)

/-- The front-running loop over all monitored borrowers, accumulating the
total debt to cover and the number of quoter calls. -/
def frontrunScan (env : Env) (a : AdversarialLiquidationAgent)
    (debtAssetPrice sqrtPriceX96 : ℕ) : List ℕ → Option (ℚ × ℕ)
  | [] => some (0, 0)
  | b :: bs => do
    let (t, c) ← frontrunStep env a debtAssetPrice sqrtPriceX96 b
    let (ts, cs) ← frontrunScan env a debtAssetPrice sqrtPriceX96 bs
    pure (t + ts, c + cs)

/-- Overridden `update` of `AdversarialLiquidationAgent`: runs the base
liquidation logic (with the overridden accountability), then the
front-running pass, and appends one swap buying the truncated aggregate
debt to cover whenever that truncation is positive. -/
def AdversarialLiquidationAgent.update (env : Env) (a : AdversarialLiquidationAgent) :
    Option (AdversarialLiquidationAgent × List Tx) := do
  let (liq', tx) ←
    LiquidationAgent.updateWith AdversarialLiquidationAgent.accountability env
      a.toLiquidationAgent
  let a' : AdversarialLiquidationAgent := { a with toLiquidationAgent := liq' }
  let debtAssetPrice := env.getAssetsPrices a'.tokenB
  let sqrtPriceX96 := env.slot0SqrtPriceX96
  let (totalDebtToCover, _) ←
    frontrunScan env a' debtAssetPrice sqrtPriceX96 a'.liquidationAddresses
  if 0 < pyInt totalDebtToCover then do
    let amountInMaximum ← pyNeg a'.balanceCollateralAsset 1
    pure (a', tx ++
      [Tx.exactOutputSingle a'.address a'.swapRouterAddress a'.tokenA a'.tokenB
        a'.uniswapFee a'.address (10 ^ 32) (pyInt totalDebtToCover)
        (amountInMaximum : ℤ) 0])
  else
    pure (a', tx)

/-- State of `BorrowAgent` (simulations/agents/borrow_agent.py): the fixed
addresses, the two phase flags, the validated activation rate and the step
counter. -/
structure BorrowAgent : Type where
  address : ℕ
  poolAddress : ℕ
  oracleAddress : ℕ
  tokenA : ℕ
  tokenB : ℕ
  decimalsTokenB : ℕ
  hasBorrowed : Bool
  hasSupplied : Bool
  activationRate : ℚ
  step : ℕ
  deriving DecidableEq, Repr

/-- `BorrowAgent.update`: draws the activation gate `r`; when activated, a
not-yet-supplied agent emits the fixed supply and flips `hasSupplied`, an
agent that supplied but did not borrow yet computes its borrowing capacity
(scaled by the utilisation draw `u`) and, when positive, emits the borrow
and flips `hasBorrowed`; otherwise nothing is emitted.  The coefficient
`10^(decimals - 4)` uses natural subtraction: the debt tokens used have at
least 4 decimals. -/
def BorrowAgent.update (env : Env) (a : BorrowAgent) (r : ℚ) (u : ℕ) :
    BorrowAgent × List Tx :=
  let a := { a with step := a.step + 1 }
  if r < a.activationRate then
    if a.hasSupplied = false then
      ({ a with hasSupplied := true },
       [Tx.supply a.address a.poolAddress a.tokenA (10 ^ 25) a.address 0])
    else if a.hasBorrowed = false then
      let availableBorrowBase := (env.getUserAccountData a.address).availableBorrowsBase
      let borrowAssetPrice := env.getAssetPrice a.tokenB
      let coef : ℕ := 10 ^ (a.decimalsTokenB - 4)
      let availableBorrow : ℤ :=
        pyInt ((coef * availableBorrowBase * u : ℚ) / (borrowAssetPrice : ℚ))
      if 0 < availableBorrow then
        ({ a with hasBorrowed := true },
         [Tx.borrow a.address a.poolAddress a.tokenB availableBorrow 2 0 a.address])
      else
        (a, [])
    else
      (a, [])
  else
    (a, [])

/-- One simulation step's inputs to a borrow agent: the environment
snapshot, the activation draw `rng.random()` and the utilisation draw
`rng.integers(...)`. -/
structure BorrowStepInput : Type where
  env : Env
  r : ℚ
  u : ℕ

/-- A run of `BorrowAgent.update` over a list of step inputs, returning the
final state and the per-step transaction lists in step order. -/
def runBorrow (a : BorrowAgent) : List BorrowStepInput → BorrowAgent × List (List Tx)
  | [] => (a, [])
  | i :: is =>
    let (a', t) := BorrowAgent.update i.env a i.r i.u
    let (a'', ts) := runBorrow a' is
    (a'', t :: ts)

/-- Test for a supply transaction. -/
def Tx.isSupply : Tx → Bool
  | .supply .. => true
  | _ => false

/-- Test for a borrow transaction. -/
def Tx.isBorrow : Tx → Bool
  | .borrow .. => true
  | _ => false

/-- Test for an `exactOutputSingle` swap (the hedging/front-run trade kind
of the liquidation agents). -/
def Tx.isExactOutputSingle : Tx → Bool
  | .exactOutputSingle .. => true
  | _ => false

/-- Phase of a borrow agent in the `NotSupplied → Supplied → Borrowed`
state machine. -/
def BorrowAgent.phase (a : BorrowAgent) : ℕ :=
  if a.hasSupplied = false then 0 else if a.hasBorrowed = false then 1 else 2

/-- External market model `Gbm` (simulations/agents/uniswap_agent.py): a
geometric Brownian motion for the price of token A, token B being a
numeraire; Python float arithmetic idealised on `ℝ`. -/
structure Gbm : Type where
  mu : ℝ
  sigma : ℝ
  token_a_price : ℝ
  token_b_price : ℝ
  token_a_price_with_impact : ℝ
  dt : ℝ

/-- `Gbm.update`: advances the price of token A by one Euler step of the
GBM with the standard-normal draw `z`, adds the transient `price_impact` to
obtain the impacted price, and leaves token B at its constant price. -/
noncomputable def Gbm.update (g : Gbm) (z priceImpact : ℝ) : Gbm :=
  let newPriceA :=
    g.token_a_price *
      Real.exp ((g.mu - 0.5 * g.sigma ^ 2) * g.dt + g.sigma * Real.sqrt g.dt * z)
  { g with
    token_a_price := newPriceA
    token_a_price_with_impact := newPriceA + priceImpact }

/-- Result record of one `scipy.optimize.root_scalar` solve: the final
iterate and the convergence flag (`RootResults.root`,
`RootResults.converged`). -/
structure RootResults : Type where
  root : ℚ
  converged : Bool
  deriving DecidableEq, Repr

/-- Iteration loop of `scipy.optimize.newton` in its secant form (no
derivative supplied), as invoked by `root_scalar(method="newton")`: state
`(p0, p1, q0, q1)`, fuel `maxiter`.  Equal function values end the search
unconverged at the midpoint; a small step ends it converged; exhausted fuel
ends it unconverged at the last iterate.  `root_scalar` passes
`full_output=True` and `disp=False`, so an unconverged search returns its
result rather than raising.  The second component counts evaluations of
`f`; `none` propagates an exception raised by `f`. -/
def secantLoop (f : ℚ → Option ℚ) (tol rtol : ℚ) :
    ℕ → ℚ → ℚ → ℚ → ℚ → Option RootResults × ℕ
  | 0, _, p1, _, _ => (some ⟨p1, false⟩, 0)
  | n + 1, p0, p1, q0, q1 =>
    if q1 = q0 then
      (some ⟨(p1 + p0) / 2, false⟩, 0)
    else
      let p :=
        if |q1| > |q0| then (-q0 / q1 * p1 + p0) / (1 - q0 / q1)
        else (-q1 / q0 * p0 + p1) / (1 - q1 / q0)
      if |p - p1| ≤ tol + rtol * |p1| then
        (some ⟨p, true⟩, 0)
      else
        match f p with
        | none => (none, 1)
        | some q =>
          let (r, c) := secantLoop f tol rtol n p1 p q1 q
          (r, c + 1)

/-- Entry point of the secant solve: builds the second starting point from
`x0` as scipy does, evaluates `f` at both starting points, orders them by
absolute function value and runs the loop. -/
def newtonSecant (f : ℚ → Option ℚ) (x0 tol rtol : ℚ) (maxiter : ℕ) :
    Option RootResults × ℕ :=
  let eps : ℚ := 1 / 10000
  let p1a := x0 * (1 + eps)
  let p1 := p1a + (if 0 ≤ p1a then eps else -eps)
  match f x0 with
  | none => (none, 1)
  | some q0 =>
    match f p1 with
    | none => (none, 2)
    | some q1 =>
      if |q1| < |q0| then
        let (r, c) := secantLoop f tol rtol maxiter p1 x0 q1 q0
        (r, c + 2)
      else
        let (r, c) := secantLoop f tol rtol maxiter x0 p1 q0 q1
        (r, c + 2)

/-- Default absolute tolerance `tol=1.48e-08` of `scipy.optimize.newton`. -/
def scipyNewtonTol : ℚ := 148 / 10 ^ 10

/-- State of `BaseUniswapAgent`: the fixed addresses of the pool, router
and quoter, the fee tier and the pool's token ordering. -/
structure UniswapAgentState : Type where
  address : ℕ
  swapRouterAddress : ℕ
  uniswapPoolAddress : ℕ
  quoterAddress : ℕ
  token0Address : ℕ
  token1Address : ℕ
  fee : ℕ
  deriving DecidableEq, Repr

/-- Raw constant-liquidity trade size of
`get_swap_size_to_increase_uniswap_price`:
`int(liquidity * (target_sqrt_price - current_sqrt_price) / 2^96)`. -/
def rawSizeIncrease (sqrtTargetPriceX96 sqrtPriceUniswapX96 liquidity : ℕ) : ℤ :=
  pyInt ((liquidity : ℚ) * ((sqrtTargetPriceX96 : ℚ) - (sqrtPriceUniswapX96 : ℚ)) / 2 ^ 96)

/-- Raw constant-liquidity trade size of
`get_swap_size_to_decrease_uniswap_price`:
`int(liquidity * (current_sqrt_price - target_sqrt_price) / 2^96)`. -/
def rawSizeDecrease (sqrtTargetPriceX96 sqrtPriceUniswapX96 liquidity : ℕ) : ℤ :=
  pyInt ((liquidity : ℚ) * ((sqrtPriceUniswapX96 : ℚ) - (sqrtTargetPriceX96 : ℚ)) / 2 ^ 96)

/-- Residual `_quote_price(x) - sqrt_target_price_x96` used by the root
search of `get_swap_size_to_increase_uniswap_price`: quotes an exact-input
swap of `int(x)` token1 for token0 and compares the resulting pool
sqrt-price with the target. -/
def increaseQuoteResidual (env : Env) (ag : UniswapAgentState)
    (sqrtTargetPriceX96 : ℕ) (x : ℚ) : Option ℚ :=
  (env.quoteExactInputSingle ag.token1Address ag.token0Address (pyInt x)).map
    fun q => (q.2 : ℚ) - (sqrtTargetPriceX96 : ℚ)

/-- Residual `_quote_price(x) - sqrt_target_price_x96` used by the root
search of `get_swap_size_to_decrease_uniswap_price`: quotes an exact-output
swap of token0 for `int(x)` token1 and compares the resulting pool
sqrt-price with the target. -/
def decreaseQuoteResidual (env : Env) (ag : UniswapAgentState)
    (sqrtTargetPriceX96 : ℕ) (x : ℚ) : Option ℚ :=
  (env.quoteExactOutputSingle ag.token0Address ag.token1Address (pyInt x)).map
    fun q => (q.2 : ℚ) - (sqrtTargetPriceX96 : ℚ)

/-- The exact-input swap transaction built by
`get_swap_size_to_increase_uniswap_price` for a trade size. -/
def increaseSwapTx (ag : UniswapAgentState) (amountIn : ℤ) : Tx :=
  Tx.exactInputSingle ag.address ag.swapRouterAddress ag.token1Address ag.token0Address
    ag.fee ag.address (10 ^ 32) amountIn 0 0

/-- The exact-output swap transaction built by
`get_swap_size_to_decrease_uniswap_price` for a trade size. -/
def decreaseSwapTx (ag : UniswapAgentState) (amountOut : ℤ) : Tx :=
  Tx.exactOutputSingle ag.address ag.swapRouterAddress ag.token0Address ag.token1Address
    ag.fee ag.address (10 ^ 32) amountOut (10 ^ 32) 0

/-- `BaseUniswapAgent.get_swap_size_to_increase_uniswap_price`: computes
the raw constant-liquidity size (no trade when it truncates to zero); with
`exact=true` refines it by the bounded secant search against the quoter
(at most 5 iterations), returning no trade when a quoter call raises and
otherwise a swap sized from the final iterate.  The second component
counts quoter invocations. -/
def getSwapSizeToIncreaseUniswapPrice (env : Env) (ag : UniswapAgentState)
    (sqrtTargetPriceX96 sqrtPriceUniswapX96 liquidity : ℕ) (exact : Bool) :
    Option Tx × ℕ :=
  let changeToken1 := rawSizeIncrease sqrtTargetPriceX96 sqrtPriceUniswapX96 liquidity
  if changeToken1 = 0 then (none, 0)
  else if exact then
    match
      newtonSecant (increaseQuoteResidual env ag sqrtTargetPriceX96)
        (changeToken1 : ℚ) scipyNewtonTol 0 5 with
    | (none, n) => (none, n)
    | (some sol, n) => (some (increaseSwapTx ag (pyInt sol.root)), n)
  else
    (some (increaseSwapTx ag changeToken1), 0)

/-- `BaseUniswapAgent.get_swap_size_to_decrease_uniswap_price`: mirror
image of the increase direction, selling token0 for an exact amount of
token1. -/
def getSwapSizeToDecreaseUniswapPrice (env : Env) (ag : UniswapAgentState)
    (sqrtTargetPriceX96 sqrtPriceUniswapX96 liquidity : ℕ) (exact : Bool) :
    Option Tx × ℕ :=
  let changeToken1 := rawSizeDecrease sqrtTargetPriceX96 sqrtPriceUniswapX96 liquidity
  if changeToken1 = 0 then (none, 0)
  else if exact then
    match
      newtonSecant (decreaseQuoteResidual env ag sqrtTargetPriceX96)
        (changeToken1 : ℚ) scipyNewtonTol 0 5 with
    | (none, n) => (none, n)
    | (some sol, n) => (some (decreaseSwapTx ag (pyInt sol.root)), n)
  else
    (some (decreaseSwapTx ag changeToken1), 0)

/-! ## Helper lemmas -/

theorem pyInt_eq_floor_or_ceil (q : ℚ) : pyInt q = if 0 ≤ q then ⌊q⌋ else ⌈q⌉ := by
  unfold pyInt
  by_cases h : 0 ≤ q
  · rw [if_pos h, Rat.floor_def]
    exact Int.tdiv_eq_ediv (Rat.num_nonneg.mpr h) (Int.ofNat_nonneg _)
  · rw [if_neg h]
    have hq : q.num < 0 := by
      by_contra hc
      exact h (Rat.num_nonneg.mp (not_lt.mp hc))
    have hceil : (⌈q⌉ : ℤ) = -⌊-q⌋ := by
      rw [Int.floor_neg]; ring
    rw [hceil, Rat.floor_def]
    rw [show (-q).num = -q.num from rfl, show (-q).den = q.den from rfl]
    rw [← Int.tdiv_eq_ediv (by omega) (Int.ofNat_nonneg _), Int.neg_tdiv]
    ring

theorem pyInt_neg (q : ℚ) : pyInt (-q) = -pyInt q := by
  unfold pyInt
  rw [show (-q).num = -q.num from rfl, show (-q).den = q.den from rfl, Int.neg_tdiv]

theorem pyNeg_concat_one {α : Type} (l : List α) (x : α) :
    pyNeg (l ++ [x]) 1 = some x := by
  unfold pyNeg
  rw [if_pos (by simp)]
  simp

theorem pyNeg_concat_two {α : Type} (l : List α) (x y : α) :
    pyNeg (l ++ [x] ++ [y]) 2 = some x := by
  unfold pyNeg
  rw [if_pos (by simp)]
  have hlen : (l ++ [x] ++ [y]).length = l.length + 2 := by simp
  rw [hlen]
  have : l.length + 2 - 2 = l.length := by omega
  rw [this, List.append_assoc, List.get?_append_right (by omega)]
  simp

theorem pyNeg_len_one_two {α : Type} (l : List α) (h : l.length = 1) :
    pyNeg l 2 = none := by
  unfold pyNeg
  rw [if_neg (by omega)]

/-! ## C1: accountability of the base liquidation agent -/

/-- C1.  For every environment state, monitored borrower address and
amount, `LiquidationAgent.accountability` returns `false` whenever the
speculative `liquidationCall` raises a revert error (the error is never
propagated), and otherwise returns `true` if and only if the AMM-quoted
collateral amount needed to buy back the covered debt (from
`quoteExactOutputSingle`) is strictly less than the collateral amount
seized in the decoded `LiquidationCall` event. -/
theorem accountability_revert_false_else_quote_lt_seized
    (env : Env) (a : LiquidationAgent) (borrower amount : ℕ) :
    (env.liquidationCall borrower amount = none →
      LiquidationAgent.accountability env a borrower amount = some false) ∧
    (∀ debtToCover seized quoted sqrtAfter,
      env.liquidationCall borrower amount = some (debtToCover, seized) →
      env.quoteExactOutputSingle a.tokenA a.tokenB (debtToCover : ℤ) =
        some (quoted, sqrtAfter) →
      (LiquidationAgent.accountability env a borrower amount = some true ↔
        quoted < seized)) := by
  constructor
  · intro h
    unfold LiquidationAgent.accountability
    rw [h]
  · intro d s q sa h1 h2
    unfold LiquidationAgent.accountability
    simp [h1, h2]

/-- Concrete environment used by several witnesses: quotes and the
speculative liquidation call always succeed with small fixed values. -/
def envW : Env where
  balanceOf := fun _ _ => 5
  getUserAccountData := fun _ => ⟨20, 4, 6, 0, 0, 2 * 10 ^ 18⟩
  liquidationCall := fun _ _ => some (3, 10)
  quoteExactOutputSingle := fun _ _ _ => some (4, 5)
  quoteExactInputSingle := fun _ _ _ => some (0, 5)
  getAssetPrice := fun _ => 2
  getAssetsPrices := fun _ => 1
  slot0SqrtPriceX96 := 10

/-- Concrete liquidation agent with no monitored borrowers and empty
histories. -/
def agW : LiquidationAgent where
  address := 1
  poolAddress := 2
  tokenA := 3
  tokenB := 4
  decimalsTokenB := 0
  liquidationAddresses := []
  uniswapPoolAddress := 5
  quoterAddress := 6
  swapRouterAddress := 7
  uniswapFee := 500
  balanceDebtAsset := []
  balanceCollateralAsset := []
  step := 0

/-- Witness for C1: in `envW` the liquidation call yields the event
`(3, 10)` and the quote costs `4 < 10`, so the accountability is `true`. -/
theorem accountability_revert_false_else_quote_lt_seized_witness :
    LiquidationAgent.accountability envW agW 0 5 = some true :=
  ((accountability_revert_false_else_quote_lt_seized envW agW 0 5).2
    3 10 4 5 rfl rfl).mpr (by norm_num)

/-! ## C3: accountability override of the adversarial agent -/

/-- C3.  For every environment, borrower address and amount,
`AdversarialLiquidationAgent.accountability` returns `true` unconditionally
whenever the agent's recorded debt-asset balance increased since the
previous recorded step (`balance_debt_asset[-2] < balance_debt_asset[-1]`),
regardless of the outcome of the superclass profitability check; when the
balance did not increase, it returns exactly the superclass
`LiquidationAgent.accountability` result. -/
theorem adversarial_accountability_long_true_else_super
    (env : Env) (a : LiquidationAgent) (borrower amount prev last : ℕ)
    (h2 : pyNeg a.balanceDebtAsset 2 = some prev)
    (h1 : pyNeg a.balanceDebtAsset 1 = some last) :
    (prev < last →
      AdversarialLiquidationAgent.accountability env a borrower amount = some true) ∧
    (¬ prev < last →
      AdversarialLiquidationAgent.accountability env a borrower amount =
        LiquidationAgent.accountability env a borrower amount) := by
  unfold AdversarialLiquidationAgent.accountability
  rw [h2, h1]
  constructor <;> intro h
  · simp [h]
  · simp [if_neg h]

/-- Witness for C3: a history ending in `[3, 7]` (an increase) makes the
adversarial accountability `true`. -/
theorem adversarial_accountability_long_true_else_super_witness :
    AdversarialLiquidationAgent.accountability envW
      { agW with balanceDebtAsset := [3, 7] } 0 5 = some true :=
  (adversarial_accountability_long_true_else_super envW
    { agW with balanceDebtAsset := [3, 7] } 0 5 3 7 rfl rfl).1 (by norm_num)

/-! ## C7: the GBM price update -/

/-- C7.  For every prior state and every standard-normal draw `z`,
`Gbm.update` sets the new token-A price to
`token_a_price * exp((mu - 0.5*sigma^2)*dt + sigma*sqrt(dt)*z)`, sets the
impacted price to that new price plus the given `price_impact`, and leaves
`token_b_price` unchanged (the numeraire stays constant at its initial
value); the update is a pure (total) function of the prior state and the
draw, its parameters `mu`, `sigma`, `dt` untouched. -/
theorem gbm_update_formula (g : Gbm) (z priceImpact : ℝ) :
    (g.update z priceImpact).token_a_price =
      g.token_a_price *
        Real.exp ((g.mu - 0.5 * g.sigma ^ 2) * g.dt + g.sigma * Real.sqrt g.dt * z) ∧
    (g.update z priceImpact).token_a_price_with_impact =
      (g.update z priceImpact).token_a_price + priceImpact ∧
    (g.update z priceImpact).token_b_price = g.token_b_price ∧
    (g.update z priceImpact).mu = g.mu ∧
    (g.update z priceImpact).sigma = g.sigma ∧
    (g.update z priceImpact).dt = g.dt :=
  ⟨rfl, rfl, rfl, rfl, rfl, rfl⟩

/-! ## C8: zero raw swap size means no trade and no quote -/

/-- C8.  For every liquidity value and every pair of target and current
sqrt prices such that the raw trade size
`int(liquidity * (target_sqrt_price - current_sqrt_price) / 2^96)` equals
zero — in particular whenever the target and current sqrt prices are
equal — both `get_swap_size_to_increase_uniswap_price` and
`get_swap_size_to_decrease_uniswap_price` return no trade, for
`exact=true` as well as `exact=false`, with zero quoter invocations. -/
theorem swap_size_zero_raw_no_trade (env : Env) (ag : UniswapAgentState)
    (sqrtTargetPriceX96 sqrtPriceUniswapX96 liquidity : ℕ) (exact : Bool)
    (h : pyInt ((liquidity : ℚ) *
        ((sqrtTargetPriceX96 : ℚ) - (sqrtPriceUniswapX96 : ℚ)) / 2 ^ 96) = 0) :
    getSwapSizeToIncreaseUniswapPrice env ag sqrtTargetPriceX96 sqrtPriceUniswapX96
      liquidity exact = (none, 0) ∧
    getSwapSizeToDecreaseUniswapPrice env ag sqrtTargetPriceX96 sqrtPriceUniswapX96
      liquidity exact = (none, 0) := by
  have hdec : rawSizeDecrease sqrtTargetPriceX96 sqrtPriceUniswapX96 liquidity = 0 := by
    unfold rawSizeDecrease
    have heq : (liquidity : ℚ) * ((sqrtPriceUniswapX96 : ℚ) - (sqrtTargetPriceX96 : ℚ)) / 2 ^ 96 =
        -((liquidity : ℚ) * ((sqrtTargetPriceX96 : ℚ) - (sqrtPriceUniswapX96 : ℚ)) / 2 ^ 96) := by
      ring
    rw [heq, pyInt_neg, h, neg_zero]
  have hinc : rawSizeIncrease sqrtTargetPriceX96 sqrtPriceUniswapX96 liquidity = 0 := h
  constructor
  · unfold getSwapSizeToIncreaseUniswapPrice
    rw [hinc]
    simp
  · unfold getSwapSizeToDecreaseUniswapPrice
    rw [hdec]
    simp

/-- Concrete Uniswap agent state used by witnesses. -/
def uniAgW : UniswapAgentState where
  address := 1
  swapRouterAddress := 2
  uniswapPoolAddress := 3
  quoterAddress := 4
  token0Address := 10
  token1Address := 11
  fee := 500

/-- Witness for C8: equal target and current sqrt prices give a zero raw
size and hence no trade in either direction. -/
theorem swap_size_zero_raw_no_trade_witness :
    getSwapSizeToIncreaseUniswapPrice envW uniAgW 7 7 1000 true = (none, 0) ∧
    getSwapSizeToDecreaseUniswapPrice envW uniAgW 7 7 1000 true = (none, 0) :=
  swap_size_zero_raw_no_trade envW uniAgW 7 7 1000 true (by norm_num [pyInt])

theorem updateWith_eq_some (acct : Env → LiquidationAgent → ℕ → ℕ → Option Bool)
    (env : Env) (a a' : LiquidationAgent) (txs : List Tx) :
    LiquidationAgent.updateWith acct env a = some (a', txs) ↔
      ∃ lp,
        filterOptM
          (fun x => acct env (LiquidationAgent.withBalancesAppended env a) x.1 (10 ^ 32))
          (LiquidationAgent.riskyPositions env (LiquidationAgent.withBalancesAppended env a)) =
            some lp ∧
        LiquidationAgent.hedgeAppended env (LiquidationAgent.withBalancesAppended env a)
          (lp.map fun x =>
            Tx.liquidationCall (LiquidationAgent.withBalancesAppended env a).address
              (LiquidationAgent.withBalancesAppended env a).poolAddress
              (LiquidationAgent.withBalancesAppended env a).tokenA
              (LiquidationAgent.withBalancesAppended env a).tokenB x.1 (10 ^ 32) false false) =
          some txs ∧
        a' = { LiquidationAgent.withBalancesAppended env a with
                step := (LiquidationAgent.withBalancesAppended env a).step + 1 } := by
  unfold LiquidationAgent.updateWith
  simp only [bind, Option.bind_eq_some, Option.pure_def, Option.some_inj, Prod.mk.injEq]
  constructor
  · rintro ⟨lp, hlp, txs0, htxs0, ha', htxs⟩
    exact ⟨lp, hlp, htxs ▸ htxs0, ha'.symm⟩
  · rintro ⟨lp, hlp, htxs, ha'⟩
    exact ⟨lp, hlp, txs, htxs, ha'.symm, rfl⟩

theorem filterOptM_cons_none {α : Type} (p : α → Option Bool) (x : α) (xs : List α)
    (h : p x = none) : filterOptM p (x :: xs) = none := by
  simp [filterOptM, h]

theorem adv_accountability_none_of_length_one (env : Env) (a : LiquidationAgent)
    (borrower amount : ℕ) (h : a.balanceDebtAsset.length = 1) :
    AdversarialLiquidationAgent.accountability env a borrower amount = none := by
  unfold AdversarialLiquidationAgent.accountability
  rw [pyNeg_len_one_two _ h]
  rfl

/-! ## C9: the adversarial accountability is partial on a fresh history -/

/-- C9.  On the very first update call of an
`AdversarialLiquidationAgent` (when `balance_debt_asset` holds exactly one
entry), if some monitored borrower's health factor is below `10^18` so
that the overridden accountability is evaluated, the access
`self.balance_debt_asset[-2]` raises `IndexError` (modelled as `none`): the
overridden accountability is total only under the precondition that at
least two balance entries have been recorded, and the first update call of
an agent with a distressed monitored borrower raises. -/
theorem adversarial_accountability_first_step_index_error :
    (∀ (env : Env) (a : LiquidationAgent) (borrower amount : ℕ),
      a.balanceDebtAsset.length = 1 →
      AdversarialLiquidationAgent.accountability env a borrower amount = none) ∧
    (∀ (env : Env) (a : AdversarialLiquidationAgent),
      a.balanceDebtAsset = [] →
      (∃ b ∈ a.liquidationAddresses, (env.getUserAccountData b).healthFactor < 10 ^ 18) →
      AdversarialLiquidationAgent.update env a = none) := by
  constructor
  · exact fun env a b amt h => adv_accountability_none_of_length_one env a b amt h
  · rintro env a hbda ⟨b, hbmem, hbhf⟩
    have hupd : LiquidationAgent.updateWith AdversarialLiquidationAgent.accountability env
        a.toLiquidationAgent = none := by
      have hlen : (LiquidationAgent.withBalancesAppended env
          a.toLiquidationAgent).balanceDebtAsset.length = 1 := by
        simp [LiquidationAgent.withBalancesAppended, hbda]
      have hmem : (b, env.getUserAccountData b) ∈
          LiquidationAgent.riskyPositions env
            (LiquidationAgent.withBalancesAppended env a.toLiquidationAgent) := by
        unfold LiquidationAgent.riskyPositions
        refine List.mem_filter.mpr ⟨List.mem_map_of_mem _ hbmem, by simpa using hbhf⟩
      rcases hr : LiquidationAgent.riskyPositions env
          (LiquidationAgent.withBalancesAppended env a.toLiquidationAgent) with _ | ⟨y, ys⟩
      · rw [hr] at hmem
        exact absurd hmem (List.not_mem_nil _)
      · have hpy : AdversarialLiquidationAgent.accountability env
            (LiquidationAgent.withBalancesAppended env a.toLiquidationAgent) y.1 (10 ^ 32) =
              none :=
          adv_accountability_none_of_length_one env _ y.1 (10 ^ 32) hlen
        have hfil : filterOptM
            (fun x => AdversarialLiquidationAgent.accountability env
              (LiquidationAgent.withBalancesAppended env a.toLiquidationAgent) x.1 (10 ^ 32))
            (LiquidationAgent.riskyPositions env
              (LiquidationAgent.withBalancesAppended env a.toLiquidationAgent)) = none := by
          rw [hr]
          exact filterOptM_cons_none _ y ys hpy
        unfold LiquidationAgent.updateWith
        dsimp only
        rw [hfil]
        rfl
    unfold AdversarialLiquidationAgent.update
    rw [hupd]
    rfl

/-- Concrete adversarial agent monitoring one distressed borrower with an
empty history, used by the C9 witness. -/
def advAgW : AdversarialLiquidationAgent where
  toLiquidationAgent := { agW with liquidationAddresses := [0] }
  aaveOracleAddress := 8
  token0Address := 3
  token1Address := 4

/-- Concrete environment whose only borrower is distressed
(`healthFactor = 0`). -/
def envDistressed : Env :=
  { envW with getUserAccountData := fun _ => ⟨20, 4, 6, 0, 0, 0⟩ }

/-- Witness for C9: the first update call of `advAgW` against a distressed
borrower raises. -/
theorem adversarial_accountability_first_step_index_error_witness :
    AdversarialLiquidationAgent.update envDistressed advAgW = none :=
  adversarial_accountability_first_step_index_error.2 envDistressed advAgW rfl
    ⟨0, by simp [advAgW, agW], by norm_num [envDistressed]⟩

theorem hedgeAppended_step_zero (env : Env) (a1 : LiquidationAgent) (liqTxs : List Tx)
    (h : a1.step = 0) : LiquidationAgent.hedgeAppended env a1 liqTxs = some liqTxs := by
  unfold LiquidationAgent.hedgeAppended
  rw [if_neg (by omega)]
  rfl

theorem hedgeAppended_step_pos (env : Env) (a1 : LiquidationAgent) (liqTxs : List Tx)
    (old : List ℕ) (p c : ℕ) (hstep : 0 < a1.step)
    (hbda : a1.balanceDebtAsset = old ++ [p] ++ [c]) :
    LiquidationAgent.hedgeAppended env a1 liqTxs =
      if 0 < (p : ℤ) - (c : ℤ) then
        some (liqTxs ++
          [Tx.exactOutputSingle a1.address a1.swapRouterAddress a1.tokenA a1.tokenB
            a1.uniswapFee a1.address (10 ^ 32) ((p : ℤ) - (c : ℤ))
            (env.balanceOf a1.tokenA a1.address : ℤ) 0])
      else some liqTxs := by
  unfold LiquidationAgent.hedgeAppended
  rw [if_pos hstep, hbda, pyNeg_concat_two]
  rw [show (old ++ [p] ++ [c] : List ℕ) = (old ++ [p]) ++ [c] from rfl, pyNeg_concat_one]
  rfl

theorem countP_isExactOutputSingle_liqTxs (lp : List (ℕ × AccountData))
    (sender pool tA tB : ℕ) :
    (lp.map fun x => Tx.liquidationCall sender pool tA tB x.1 (10 ^ 32) false false).countP
      Tx.isExactOutputSingle = 0 := by
  rw [List.countP_eq_zero]
  intro t ht
  obtain ⟨x, _, rfl⟩ := List.mem_map.mp ht
  simp [Tx.isExactOutputSingle]

/-! ## C5: the hedging trade of the base liquidation agent -/

/-- C5.  For every `LiquidationAgent.update` call with step at least 1, if
the debt-asset balance recorded at this step is smaller than the balance
recorded at the previous step by `d > 0`, the returned transaction list
ends with exactly one `exactOutputSingle` hedging trade whose exact output
amount equals `d`; if the balance did not decrease, or on the first update
call (step 0), no hedging trade is emitted. -/
theorem update_hedges_exact_balance_decrease
    (acct : Env → LiquidationAgent → ℕ → ℕ → Option Bool)
    (env : Env) (a a' : LiquidationAgent) (txs : List Tx)
    (h : LiquidationAgent.updateWith acct env a = some (a', txs)) :
    (a.step = 0 → txs.countP Tx.isExactOutputSingle = 0) ∧
    (∀ (old : List ℕ) (prev : ℕ), 0 < a.step → a.balanceDebtAsset = old ++ [prev] →
      (0 < (prev : ℤ) - (env.balanceOf a.tokenB a.address : ℤ) →
        ∃ pre, txs = pre ++
            [Tx.exactOutputSingle a.address a.swapRouterAddress a.tokenA a.tokenB
              a.uniswapFee a.address (10 ^ 32)
              ((prev : ℤ) - (env.balanceOf a.tokenB a.address : ℤ))
              (env.balanceOf a.tokenA a.address : ℤ) 0] ∧
          pre.countP Tx.isExactOutputSingle = 0) ∧
      ((prev : ℤ) - (env.balanceOf a.tokenB a.address : ℤ) ≤ 0 →
        txs.countP Tx.isExactOutputSingle = 0)) := by
  rw [updateWith_eq_some] at h
  obtain ⟨lp, hlp, hhedge, ha'⟩ := h
  have hcnt := countP_isExactOutputSingle_liqTxs lp
    (LiquidationAgent.withBalancesAppended env a).address
    (LiquidationAgent.withBalancesAppended env a).poolAddress
    (LiquidationAgent.withBalancesAppended env a).tokenA
    (LiquidationAgent.withBalancesAppended env a).tokenB
  have hstepEq : (LiquidationAgent.withBalancesAppended env a).step = a.step := rfl
  constructor
  · intro hstep
    rw [hedgeAppended_step_zero env (LiquidationAgent.withBalancesAppended env a) _
      (hstepEq.trans hstep)] at hhedge
    obtain rfl := Option.some_injective _ hhedge
    exact hcnt
  · intro old prev hstep hbda
    have hbda1 : (LiquidationAgent.withBalancesAppended env a).balanceDebtAsset =
        old ++ [prev] ++ [env.balanceOf a.tokenB a.address] := by
      simp [LiquidationAgent.withBalancesAppended, hbda]
    rw [hedgeAppended_step_pos env (LiquidationAgent.withBalancesAppended env a) _
      old prev (env.balanceOf a.tokenB a.address) (hstepEq ▸ hstep) hbda1] at hhedge
    constructor
    · intro hpos
      rw [if_pos hpos] at hhedge
      obtain rfl := Option.some_injective _ hhedge
      exact ⟨_, rfl, hcnt⟩
    · intro hneg
      rw [if_neg (by omega)] at hhedge
      obtain rfl := Option.some_injective _ hhedge
      exact hcnt

/-- Witness for C5: with one prior recorded debt balance 9 and a current
debt balance 5, the update of an agent monitoring no borrowers emits
exactly the hedging trade buying back 4. -/
theorem update_hedges_exact_balance_decrease_witness :
    ∃ pre, [Tx.exactOutputSingle 1 7 3 4 500 1 (10 ^ 32) 4 5 0] = pre ++
        [Tx.exactOutputSingle agW.address agW.swapRouterAddress agW.tokenA agW.tokenB
          agW.uniswapFee agW.address (10 ^ 32)
          ((9 : ℤ) - (envW.balanceOf agW.tokenB agW.address : ℤ))
          (envW.balanceOf agW.tokenA agW.address : ℤ) 0] ∧
      pre.countP Tx.isExactOutputSingle = 0 :=
  ((update_hedges_exact_balance_decrease LiquidationAgent.accountability envW
      { agW with balanceDebtAsset := [9], balanceCollateralAsset := [2], step := 1 }
      _ _ rfl).2 [] 9 (by norm_num) rfl).1 (by norm_num [envW, agW])

theorem updateWith_state (acct : Env → LiquidationAgent → ℕ → ℕ → Option Bool)
    (env : Env) (a a' : LiquidationAgent) (txs : List Tx)
    (h : LiquidationAgent.updateWith acct env a = some (a', txs)) :
    a'.balanceDebtAsset = a.balanceDebtAsset ++ [env.balanceOf a.tokenB a.address] ∧
    a'.balanceCollateralAsset =
      a.balanceCollateralAsset ++ [env.balanceOf a.tokenA a.address] ∧
    a'.step = a.step + 1 := by
  rw [updateWith_eq_some] at h
  obtain ⟨lp, _, _, rfl⟩ := h
  exact ⟨rfl, rfl, rfl⟩

/-! ## C10: balance histories are append-only -/

/-- C10.  Every call to `LiquidationAgent.update` (also through the
`AdversarialLiquidationAgent` subclass) appends exactly one entry to
`balance_collateral_asset` and exactly one entry to `balance_debt_asset`
and never removes or overwrites existing entries, so after `n` update
calls each history has grown by exactly `n` with the earlier entries an
unchanged prefix; `record` reads balances from the environment and leaves
the agent state, in particular both histories, unchanged. -/
theorem balance_histories_append_only
    (acct : Env → LiquidationAgent → ℕ → ℕ → Option Bool) :
    (∀ (env : Env) (a a' : LiquidationAgent) (txs : List Tx),
      LiquidationAgent.updateWith acct env a = some (a', txs) →
      a'.balanceDebtAsset = a.balanceDebtAsset ++ [env.balanceOf a.tokenB a.address] ∧
      a'.balanceCollateralAsset =
        a.balanceCollateralAsset ++ [env.balanceOf a.tokenA a.address]) ∧
    (∀ (envs : List Env) (a aN : LiquidationAgent),
      runLiquidation acct a envs = some aN →
      aN.balanceDebtAsset.length = a.balanceDebtAsset.length + envs.length ∧
      aN.balanceCollateralAsset.length = a.balanceCollateralAsset.length + envs.length ∧
      (∃ t, aN.balanceDebtAsset = a.balanceDebtAsset ++ t) ∧
      (∃ t, aN.balanceCollateralAsset = a.balanceCollateralAsset ++ t)) ∧
    (∀ (env : Env) (a : LiquidationAgent), (LiquidationAgent.record env a).1 = a) ∧
    (∀ (env : Env) (a a' : AdversarialLiquidationAgent) (txs : List Tx),
      AdversarialLiquidationAgent.update env a = some (a', txs) →
      a'.balanceDebtAsset = a.balanceDebtAsset ++ [env.balanceOf a.tokenB a.address] ∧
      a'.balanceCollateralAsset =
        a.balanceCollateralAsset ++ [env.balanceOf a.tokenA a.address]) := by
  refine ⟨?_, ?_, ?_, ?_⟩
  · intro env a a' txs h
    exact ⟨(updateWith_state acct env a a' txs h).1, (updateWith_state acct env a a' txs h).2.1⟩
  · intro envs
    induction envs with
    | nil =>
      intro a aN h
      obtain rfl := Option.some_injective _ h
      exact ⟨rfl, rfl, ⟨[], by simp⟩, ⟨[], by simp⟩⟩
    | cons env envs ih =>
      intro a aN h
      unfold runLiquidation at h
      simp only [bind, Option.bind_eq_some] at h
      obtain ⟨⟨a1, txs⟩, h1, h2⟩ := h
      obtain ⟨hb, hc, _⟩ := updateWith_state acct env a a1 txs h1
      obtain ⟨ihb, ihc, ⟨t1, iht1⟩, ⟨t2, iht2⟩⟩ := ih a1 aN h2
      refine ⟨?_, ?_, ⟨_, by rw [iht1, hb, List.append_assoc]⟩,
        ⟨_, by rw [iht2, hc, List.append_assoc]⟩⟩
      · rw [ihb, hb]; simp [List.length_append]; omega
      · rw [ihc, hc]; simp [List.length_append]; omega
  · intro env a
    rfl
  · intro env a a' txs h
    unfold AdversarialLiquidationAgent.update at h
    simp only [bind, Option.bind_eq_some] at h
    obtain ⟨⟨liq', btx⟩, h1, h⟩ := h
    obtain ⟨hb, hc, _⟩ := updateWith_state _ env a.toLiquidationAgent liq' btx h1
    obtain ⟨⟨t, c⟩, hscan, h⟩ := h
    have ha' : a'.toLiquidationAgent = liq' := by
      by_cases hpos : 0 < pyInt t
      · rw [if_pos hpos] at h
        simp only [bind, Option.bind_eq_some] at h
        obtain ⟨am, _, h⟩ := h
        obtain ⟨rfl, rfl⟩ := Prod.mk.injEq .. ▸ Option.some_injective _ h
        rfl
      · rw [if_neg hpos] at h
        obtain ⟨rfl, rfl⟩ := Prod.mk.injEq .. ▸ Option.some_injective _ h
        rfl
    constructor
    · show a'.toLiquidationAgent.balanceDebtAsset = _
      rw [ha', hb]
    · show a'.toLiquidationAgent.balanceCollateralAsset = _
      rw [ha', hc]

/-- Witness for C10: a two-step run of the concrete agent grows both
histories by two entries. -/
theorem balance_histories_append_only_witness :
    ∃ aN, runLiquidation LiquidationAgent.accountability agW [envW, envW] = some aN ∧
      (aN.balanceDebtAsset.length = agW.balanceDebtAsset.length + 2 ∧
       ∃ t, aN.balanceDebtAsset = agW.balanceDebtAsset ++ t) := by
  refine ⟨_, rfl, ?_, ?_⟩
  · exact ((balance_histories_append_only LiquidationAgent.accountability).2.1
      [envW, envW] agW _ rfl).1
  · exact ((balance_histories_append_only LiquidationAgent.accountability).2.1
      [envW, envW] agW _ rfl).2.2.1

theorem frontrunStep_count (env : Env) (a : AdversarialLiquidationAgent)
    (dp sp b : ℕ) (t : ℚ) (c : ℕ) (h : frontrunStep env a dp sp b = some (t, c)) :
    c = if 0 < debtToCoverQ env a dp b then 1 else 0 := by
  unfold frontrunStep at h
  dsimp only at h
  by_cases hd : 0 < debtToCoverQ env a dp b
  · rw [if_pos hd] at h
    rw [if_pos hd]
    cases hq : env.quoteExactOutputSingle a.tokenA a.tokenB
        (pyInt (debtToCoverQ env a dp b)) with
    | none =>
      rw [hq] at h
      cases h
    | some q =>
      rw [hq] at h
      obtain ⟨x, sa⟩ := q
      dsimp only at h
      split at h <;>
        (obtain ⟨h1, h2⟩ := Prod.mk.injEq .. ▸ Option.some_injective _ h; omega)
  · rw [if_neg hd] at h
    rw [if_neg hd]
    obtain ⟨h1, h2⟩ := Prod.mk.injEq .. ▸ Option.some_injective _ h
    omega

theorem frontrunStep_spec (env : Env) (a : AdversarialLiquidationAgent) (dp sp b : ℕ) :
    (¬ 0 < debtToCoverQ env a dp b → frontrunStep env a dp sp b = some (0, 0)) ∧
    (∀ x sa, 0 < debtToCoverQ env a dp b →
      env.quoteExactOutputSingle a.tokenA a.tokenB (pyInt (debtToCoverQ env a dp b)) =
        some (x, sa) →
      frontrunStep env a dp sp b =
        some (if hfWindow a sp (env.getUserAccountData b).healthFactor sa then
                debtToCoverQ env a dp b
              else 0, 1)) := by
  constructor
  · intro hd
    unfold frontrunStep
    dsimp only
    rw [if_neg hd]
  · intro x sa hd hq
    unfold frontrunStep
    dsimp only
    rw [if_pos hd, hq]
    dsimp only
    split <;> simp [*]

theorem frontrunScan_spec (env : Env) (a : AdversarialLiquidationAgent) (dp sp : ℕ) :
    ∀ (bs : List ℕ) (t : ℚ) (c : ℕ), frontrunScan env a dp sp bs = some (t, c) →
      c = bs.countP (fun b => decide (0 < debtToCoverQ env a dp b)) ∧
      t = (bs.map fun b => ((frontrunStep env a dp sp b).getD (0, 0)).1).sum := by
  intro bs
  induction bs with
  | nil =>
    intro t c h
    obtain ⟨h1, h2⟩ := Prod.mk.injEq .. ▸ Option.some_injective _ h
    simp [← h1, ← h2]
  | cons b bs ih =>
    intro t c h
    unfold frontrunScan at h
    simp only [bind, Option.bind_eq_some] at h
    obtain ⟨⟨t1, c1⟩, hstep, h⟩ := h
    obtain ⟨⟨t2, c2⟩, hscan, h⟩ := h
    obtain ⟨h1, h2⟩ := Prod.mk.injEq .. ▸ Option.some_injective _ h
    obtain ⟨ihc, iht⟩ := ih t2 c2 hscan
    have hc1 := frontrunStep_count env a dp sp b t1 c1 hstep
    constructor
    · rw [← h2, List.countP_cons, ihc, hc1]
      by_cases hd : 0 < debtToCoverQ env a dp b <;> simp [hd] <;> omega
    · rw [← h1, List.map_cons, List.sum_cons, iht, hstep]
      rfl

theorem adv_update_shape (env : Env) (a a' : AdversarialLiquidationAgent)
    (txs : List Tx) (h : AdversarialLiquidationAgent.update env a = some (a', txs)) :
    ∃ liq' btx t c,
      LiquidationAgent.updateWith AdversarialLiquidationAgent.accountability env
        a.toLiquidationAgent = some (liq', btx) ∧
      a' = { a with toLiquidationAgent := liq' } ∧
      frontrunScan env a' (env.getAssetsPrices a'.tokenB) env.slot0SqrtPriceX96
        a'.liquidationAddresses = some (t, c) ∧
      ((0 < pyInt t ∧ ∃ amountInMax, pyNeg a'.balanceCollateralAsset 1 = some amountInMax ∧
          txs = btx ++
            [Tx.exactOutputSingle a'.address a'.swapRouterAddress a'.tokenA a'.tokenB
              a'.uniswapFee a'.address (10 ^ 32) (pyInt t) (amountInMax : ℤ) 0]) ∨
        (pyInt t ≤ 0 ∧ txs = btx)) := by
  unfold AdversarialLiquidationAgent.update at h
  simp only [bind, Option.bind_eq_some] at h
  obtain ⟨⟨liq', btx⟩, h1, h⟩ := h
  obtain ⟨⟨t, c⟩, hscan, h⟩ := h
  refine ⟨liq', btx, t, c, h1, ?_⟩
  by_cases hpos : 0 < pyInt t
  · rw [if_pos hpos] at h
    simp only [bind, Option.bind_eq_some] at h
    obtain ⟨am, ham, h⟩ := h
    obtain ⟨ha', htxs⟩ := Prod.mk.injEq .. ▸ Option.some_injective _ h
    refine ⟨ha'.symm, ha'.symm ▸ hscan, Or.inl ⟨hpos, am, ha'.symm ▸ ham, ?_⟩⟩
    rw [← htxs, ← ha']
  · rw [if_neg hpos] at h
    obtain ⟨ha', htxs⟩ := Prod.mk.injEq .. ▸ Option.some_injective _ h
    exact ⟨ha'.symm, ha'.symm ▸ hscan, Or.inr ⟨by omega, htxs.symm⟩⟩

/-! ## C4: the adversarial front-running pass -/

/-- C4.  In every `AdversarialLiquidationAgent.update` call, the
front-running pass makes at most one quote call per monitored borrower
(none when that borrower's computed debt-to-cover is zero), accumulates
debt-to-cover only for borrowers whose health factor `hf` satisfies
`1.0 < hf/10^18 <` the quote-derived upper bound, and appends exactly one
additional front-run swap trade for exactly the integer aggregate amount,
after the liquidation transactions in the same step's transaction list, if
and only if the integer aggregate exceeds zero. -/
theorem adversarial_update_frontrun_pass (env : Env) (a : AdversarialLiquidationAgent) :
    (∀ dp sp b, (¬ 0 < debtToCoverQ env a dp b → frontrunStep env a dp sp b = some (0, 0)) ∧
      (∀ x sa, 0 < debtToCoverQ env a dp b →
        env.quoteExactOutputSingle a.tokenA a.tokenB (pyInt (debtToCoverQ env a dp b)) =
          some (x, sa) →
        frontrunStep env a dp sp b =
          some (if hfWindow a sp (env.getUserAccountData b).healthFactor sa then
                  debtToCoverQ env a dp b
                else 0, 1))) ∧
    (∀ (dp sp : ℕ) (bs : List ℕ) (t : ℚ) (c : ℕ),
      frontrunScan env a dp sp bs = some (t, c) →
      c = bs.countP (fun b => decide (0 < debtToCoverQ env a dp b)) ∧ c ≤ bs.length ∧
      t = (bs.map fun b => ((frontrunStep env a dp sp b).getD (0, 0)).1).sum) ∧
    (∀ (a' : AdversarialLiquidationAgent) (txs : List Tx),
      AdversarialLiquidationAgent.update env a = some (a', txs) →
      ∃ liq' btx t c,
        LiquidationAgent.updateWith AdversarialLiquidationAgent.accountability env
          a.toLiquidationAgent = some (liq', btx) ∧
        a' = { a with toLiquidationAgent := liq' } ∧
        frontrunScan env a' (env.getAssetsPrices a'.tokenB) env.slot0SqrtPriceX96
          a'.liquidationAddresses = some (t, c) ∧
        ((0 < pyInt t ∧ ∃ amountInMax,
            pyNeg a'.balanceCollateralAsset 1 = some amountInMax ∧
            txs = btx ++
              [Tx.exactOutputSingle a'.address a'.swapRouterAddress a'.tokenA a'.tokenB
                a'.uniswapFee a'.address (10 ^ 32) (pyInt t) (amountInMax : ℤ) 0]) ∨
          (pyInt t ≤ 0 ∧ txs = btx))) := by
  refine ⟨fun dp sp b => frontrunStep_spec env a dp sp b, ?_, ?_⟩
  · intro dp sp bs t c h
    obtain ⟨hc, ht⟩ := frontrunScan_spec env a dp sp bs t c h
    exact ⟨hc, hc ▸ List.countP_le_length _, ht⟩
  · intro a' txs h
    exact adv_update_shape env a a' txs h

/-- Witness for C4: against `envW`, the agent `advAgW` monitors one
borrower whose health factor `2e18` lies in the window `(1, 4)`, giving an
aggregate debt-to-cover of 2 and hence a single appended front-run
trade. -/
def liqW1 : LiquidationAgent :=
  { agW with
    liquidationAddresses := [0]
    balanceDebtAsset := [5]
    balanceCollateralAsset := [5]
    step := 1 }

theorem adversarial_update_frontrun_pass_witness :
    ∃ a' txs, AdversarialLiquidationAgent.update envW advAgW = some (a', txs) ∧
      ∃ liq' btx t c,
        LiquidationAgent.updateWith AdversarialLiquidationAgent.accountability envW
          advAgW.toLiquidationAgent = some (liq', btx) ∧
        a' = { advAgW with toLiquidationAgent := liq' } ∧
        frontrunScan envW a' (envW.getAssetsPrices a'.tokenB) envW.slot0SqrtPriceX96
          a'.liquidationAddresses = some (t, c) ∧
        ((0 < pyInt t ∧ ∃ amountInMax,
            pyNeg a'.balanceCollateralAsset 1 = some amountInMax ∧
            txs = btx ++
              [Tx.exactOutputSingle a'.address a'.swapRouterAddress a'.tokenA a'.tokenB
                a'.uniswapFee a'.address (10 ^ 32) (pyInt t) (amountInMax : ℤ) 0]) ∨
          (pyInt t ≤ 0 ∧ txs = btx)) :=
  ⟨{ advAgW with toLiquidationAgent := liqW1 },
   [Tx.exactOutputSingle 1 7 3 4 500 1 (10 ^ 32) 2 5 0], rfl,
   (adversarial_update_frontrun_pass envW advAgW).2.2
     { advAgW with toLiquidationAgent := liqW1 }
     [Tx.exactOutputSingle 1 7 3 4 500 1 (10 ^ 32) 2 5 0] rfl⟩

/-! ## C2: the exact-mode root-search refinement -/

/-- C2 (amended).  For every call to
`get_swap_size_to_increase_uniswap_price` or
`get_swap_size_to_decrease_uniswap_price` with `exact=true` and a nonzero
raw trade size, the raw size is refined by the bounded secant/Newton root
search of at most 5 iterations against the quoter; the function returns no
trade exactly when a quoter call inside the search raises (e.g. reverts),
and otherwise returns a swap sized from the search's final iterate — even
when the search terminated without converging. -/
theorem swap_size_exact_root_search (env : Env) (ag : UniswapAgentState)
    (sqrtTargetPriceX96 sqrtPriceUniswapX96 liquidity : ℕ)
    (hinc : rawSizeIncrease sqrtTargetPriceX96 sqrtPriceUniswapX96 liquidity ≠ 0)
    (hdec : rawSizeDecrease sqrtTargetPriceX96 sqrtPriceUniswapX96 liquidity ≠ 0) :
    (∀ n, newtonSecant (increaseQuoteResidual env ag sqrtTargetPriceX96)
        ((rawSizeIncrease sqrtTargetPriceX96 sqrtPriceUniswapX96 liquidity : ℚ))
        scipyNewtonTol 0 5 = (none, n) →
      getSwapSizeToIncreaseUniswapPrice env ag sqrtTargetPriceX96 sqrtPriceUniswapX96
        liquidity true = (none, n)) ∧
    (∀ sol n, newtonSecant (increaseQuoteResidual env ag sqrtTargetPriceX96)
        ((rawSizeIncrease sqrtTargetPriceX96 sqrtPriceUniswapX96 liquidity : ℚ))
        scipyNewtonTol 0 5 = (some sol, n) →
      getSwapSizeToIncreaseUniswapPrice env ag sqrtTargetPriceX96 sqrtPriceUniswapX96
        liquidity true = (some (increaseSwapTx ag (pyInt sol.root)), n)) ∧
    (∀ n, newtonSecant (decreaseQuoteResidual env ag sqrtTargetPriceX96)
        ((rawSizeDecrease sqrtTargetPriceX96 sqrtPriceUniswapX96 liquidity : ℚ))
        scipyNewtonTol 0 5 = (none, n) →
      getSwapSizeToDecreaseUniswapPrice env ag sqrtTargetPriceX96 sqrtPriceUniswapX96
        liquidity true = (none, n)) ∧
    (∀ sol n, newtonSecant (decreaseQuoteResidual env ag sqrtTargetPriceX96)
        ((rawSizeDecrease sqrtTargetPriceX96 sqrtPriceUniswapX96 liquidity : ℚ))
        scipyNewtonTol 0 5 = (some sol, n) →
      getSwapSizeToDecreaseUniswapPrice env ag sqrtTargetPriceX96 sqrtPriceUniswapX96
        liquidity true = (some (decreaseSwapTx ag (pyInt sol.root)), n)) := by
  refine ⟨?_, ?_, ?_, ?_⟩
  · intro n h
    unfold getSwapSizeToIncreaseUniswapPrice
    rw [if_neg hinc, if_pos rfl, h]
  · intro sol n h
    unfold getSwapSizeToIncreaseUniswapPrice
    rw [if_neg hinc, if_pos rfl, h]
  · intro n h
    unfold getSwapSizeToDecreaseUniswapPrice
    rw [if_neg hdec, if_pos rfl, h]
  · intro sol n h
    unfold getSwapSizeToDecreaseUniswapPrice
    rw [if_neg hdec, if_pos rfl, h]

set_option maxRecDepth 4000 in
/-- Counterexample to C2 as stated: in `envW` the quoter always reports a
pool sqrt-price of 5, so the residual against target 2 is the nonzero
constant 3, the secant search ends its first iteration unconverged
(`converged = false` with the midpoint of its two starting points as the
final iterate) — and `get_swap_size_to_increase_uniswap_price` nonetheless
returns a swap built from that stale iterate instead of no trade. -/
theorem swap_size_exact_root_search_counterexample :
    (newtonSecant (increaseQuoteResidual envW uniAgW 2)
        ((rawSizeIncrease 2 1 (2 ^ 96) : ℚ)) scipyNewtonTol 0 5).1 =
      some ⟨10001 / 10000, false⟩ ∧
    getSwapSizeToIncreaseUniswapPrice envW uniAgW 2 1 (2 ^ 96) true =
      (some (increaseSwapTx uniAgW 1), 2) := by
  constructor
  · rfl
  · rfl

set_option maxRecDepth 4000 in
/-- Witness for the amended C2: at the counterexample's inputs the raw
sizes are nonzero and the search returns the unconverged final iterate
`10001/10000`, which the function truncates into the emitted swap. -/
theorem swap_size_exact_root_search_witness :
    getSwapSizeToIncreaseUniswapPrice envW uniAgW 2 1 (2 ^ 96) true =
      (some (increaseSwapTx uniAgW (pyInt (10001 / 10000 : ℚ))), 2) :=
  (swap_size_exact_root_search envW uniAgW 2 1 (2 ^ 96) (by decide) (by decide)).2.1
    ⟨10001 / 10000, false⟩ 2 (by decide)

theorem borrowUpdate_step (env : Env) (a : BorrowAgent) (r : ℚ) (u : ℕ) :
    ((BorrowAgent.update env a r u).2.countP Tx.isSupply =
      (BorrowAgent.update env a r u).1.hasSupplied.toNat - a.hasSupplied.toNat) ∧
    ((BorrowAgent.update env a r u).2.countP Tx.isBorrow =
      (BorrowAgent.update env a r u).1.hasBorrowed.toNat - a.hasBorrowed.toNat) ∧
    (a.hasSupplied = true → (BorrowAgent.update env a r u).1.hasSupplied = true) ∧
    (a.hasBorrowed = true → (BorrowAgent.update env a r u).1.hasBorrowed = true) ∧
    ((BorrowAgent.update env a r u).1.hasBorrowed = true →
      a.hasBorrowed = true ∨ a.hasSupplied = true) ∧
    ((∃ tx ∈ (BorrowAgent.update env a r u).2, Tx.isBorrow tx = true) →
      a.hasSupplied = true) ∧
    ((BorrowAgent.update env a r u).1.hasSupplied = true →
      a.hasSupplied = true ∨ ∃ tx ∈ (BorrowAgent.update env a r u).2, Tx.isSupply tx = true) ∧
    (¬((∃ tx ∈ (BorrowAgent.update env a r u).2, Tx.isSupply tx = true) ∧
       (∃ tx ∈ (BorrowAgent.update env a r u).2, Tx.isBorrow tx = true))) := by
  unfold BorrowAgent.update
  dsimp only
  split_ifs with h1 h2 h3 h4 <;>
    simp_all [Tx.isSupply, Tx.isBorrow, List.countP_cons, List.countP_nil]

theorem runBorrow_supplied_mono (inputs : List BorrowStepInput) :
    ∀ a : BorrowAgent, a.hasSupplied = true → (runBorrow a inputs).1.hasSupplied = true := by
  induction inputs with
  | nil => intro a h; exact h
  | cons i is ih =>
    intro a h
    exact ih _ ((borrowUpdate_step i.env a i.r i.u).2.2.1 h)

theorem runBorrow_borrowed_mono (inputs : List BorrowStepInput) :
    ∀ a : BorrowAgent, a.hasBorrowed = true → (runBorrow a inputs).1.hasBorrowed = true := by
  induction inputs with
  | nil => intro a h; exact h
  | cons i is ih =>
    intro a h
    exact ih _ ((borrowUpdate_step i.env a i.r i.u).2.2.2.1 h)

theorem runBorrow_countSupply (inputs : List BorrowStepInput) :
    ∀ a : BorrowAgent, ((runBorrow a inputs).2.join).countP Tx.isSupply =
      (runBorrow a inputs).1.hasSupplied.toNat - a.hasSupplied.toNat := by
  induction inputs with
  | nil => intro a; simp [runBorrow]
  | cons i is ih =>
    intro a
    show ((BorrowAgent.update i.env a i.r i.u).2 ++
        (runBorrow (BorrowAgent.update i.env a i.r i.u).1 is).2.join).countP Tx.isSupply = _
    rw [List.countP_append, ih, (borrowUpdate_step i.env a i.r i.u).1]
    have hmono1 := (borrowUpdate_step i.env a i.r i.u).2.2.1
    have hmono2 := runBorrow_supplied_mono is (BorrowAgent.update i.env a i.r i.u).1
    cases ha : a.hasSupplied <;>
      cases hm : (BorrowAgent.update i.env a i.r i.u).1.hasSupplied <;>
      cases hn : (runBorrow (BorrowAgent.update i.env a i.r i.u).1 is).1.hasSupplied <;>
      simp_all [runBorrow]

theorem runBorrow_countBorrow (inputs : List BorrowStepInput) :
    ∀ a : BorrowAgent, ((runBorrow a inputs).2.join).countP Tx.isBorrow =
      (runBorrow a inputs).1.hasBorrowed.toNat - a.hasBorrowed.toNat := by
  induction inputs with
  | nil => intro a; simp [runBorrow]
  | cons i is ih =>
    intro a
    show ((BorrowAgent.update i.env a i.r i.u).2 ++
        (runBorrow (BorrowAgent.update i.env a i.r i.u).1 is).2.join).countP Tx.isBorrow = _
    rw [List.countP_append, ih, (borrowUpdate_step i.env a i.r i.u).2.1]
    have hmono1 := (borrowUpdate_step i.env a i.r i.u).2.2.2.1
    have hmono2 := runBorrow_borrowed_mono is (BorrowAgent.update i.env a i.r i.u).1
    cases ha : a.hasBorrowed <;>
      cases hm : (BorrowAgent.update i.env a i.r i.u).1.hasBorrowed <;>
      cases hn : (runBorrow (BorrowAgent.update i.env a i.r i.u).1 is).1.hasBorrowed <;>
      simp_all [runBorrow]

theorem runBorrow_borrow_after_supply (inputs : List BorrowStepInput) :
    ∀ (a : BorrowAgent) (i : ℕ) (ts : List Tx),
      (runBorrow a inputs).2.get? i = some ts →
      (∃ tx ∈ ts, Tx.isBorrow tx = true) →
      a.hasSupplied = true ∨
        ∃ j, j < i ∧ ∃ ts', (runBorrow a inputs).2.get? j = some ts' ∧
          ∃ tx ∈ ts', Tx.isSupply tx = true := by
  induction inputs with
  | nil =>
    intro a i ts hget
    simp [runBorrow] at hget
  | cons inp is ih =>
    intro a i ts hget hborrow
    have hshape : (runBorrow a (inp :: is)).2 =
        (BorrowAgent.update inp.env a inp.r inp.u).2 ::
          (runBorrow (BorrowAgent.update inp.env a inp.r inp.u).1 is).2 := rfl
    rw [hshape] at hget
    cases i with
    | zero =>
      simp only [List.get?_cons_zero] at hget
      obtain rfl := Option.some_injective _ hget
      exact Or.inl ((borrowUpdate_step inp.env a inp.r inp.u).2.2.2.2.2.1 hborrow)
    | succ i =>
      simp only [List.get?_cons_succ] at hget
      rcases ih (BorrowAgent.update inp.env a inp.r inp.u).1 i ts hget hborrow with h | ⟨j, hj, ts', hget', hsup⟩
      · rcases (borrowUpdate_step inp.env a inp.r inp.u).2.2.2.2.2.2.1 h with h' | ⟨tx, htx, hsup⟩
        · exact Or.inl h'
        · exact Or.inr ⟨0, Nat.succ_pos _, _, by rw [hshape]; rfl, ⟨tx, htx, hsup⟩⟩
      · exact Or.inr ⟨j + 1, by omega, ts', by rw [hshape]; simpa using hget', hsup⟩

theorem runBorrow_inv (inputs : List BorrowStepInput) :
    ∀ a : BorrowAgent, (a.hasBorrowed = true → a.hasSupplied = true) →
      ((runBorrow a inputs).1.hasBorrowed = true →
        (runBorrow a inputs).1.hasSupplied = true) := by
  induction inputs with
  | nil => intro a h; exact h
  | cons i is ih =>
    intro a h
    refine ih (BorrowAgent.update i.env a i.r i.u).1 ?_
    intro hb
    rcases (borrowUpdate_step i.env a i.r i.u).2.2.2.2.1 hb with h' | h'
    · exact (borrowUpdate_step i.env a i.r i.u).2.2.1 (h h')
    · exact (borrowUpdate_step i.env a i.r i.u).2.2.1 h'

theorem borrowUpdate_phase (env : Env) (a : BorrowAgent) (r : ℚ) (u : ℕ)
    (hinv : a.hasBorrowed = true → a.hasSupplied = true) :
    BorrowAgent.phase a ≤ BorrowAgent.phase (BorrowAgent.update env a r u).1 ∧
    BorrowAgent.phase (BorrowAgent.update env a r u).1 ≤ BorrowAgent.phase a + 1 := by
  have hs := (borrowUpdate_step env a r u).2.2.1
  have hb := (borrowUpdate_step env a r u).2.2.2.1
  have hba := (borrowUpdate_step env a r u).2.2.2.2.1
  unfold BorrowAgent.phase
  cases ha : a.hasSupplied <;> cases hab : a.hasBorrowed <;>
    cases hm : (BorrowAgent.update env a r u).1.hasSupplied <;>
    cases hn : (BorrowAgent.update env a r u).1.hasBorrowed <;>
    simp_all

theorem runBorrow_mem_step (inputs : List BorrowStepInput) :
    ∀ (a : BorrowAgent) (ts : List Tx), ts ∈ (runBorrow a inputs).2 →
      ∃ (env : Env) (b : BorrowAgent) (r : ℚ) (u : ℕ),
        ts = (BorrowAgent.update env b r u).2 := by
  induction inputs with
  | nil => intro a ts h; simp [runBorrow] at h
  | cons i is ih =>
    intro a ts h
    have hshape : (runBorrow a (i :: is)).2 =
        (BorrowAgent.update i.env a i.r i.u).2 ::
          (runBorrow (BorrowAgent.update i.env a i.r i.u).1 is).2 := rfl
    rw [hshape] at h
    rcases List.mem_cons.mp h with rfl | h
    · exact ⟨i.env, a, i.r, i.u, rfl⟩
    · exact ih _ ts h

theorem countP_join_prefix_le (p : Tx → Bool) (l1 l2 : List (List Tx)) :
    (l1.join).countP p ≤ ((l1 ++ l2).join).countP p := by
  show (l1.flatten).countP p ≤ ((l1 ++ l2).flatten).countP p
  induction l1 with
  | nil => simp
  | cons t l1 ih =>
    simp only [List.cons_append, List.flatten_cons, List.countP_append]
    omega

/-! ## C6: the borrow agent's phase-ordering invariants -/

/-- C6.  For every `activation_rate` in `(0,1)` and every sequence of
update calls with any random draws, a `BorrowAgent` never emits a borrow
transaction before it has emitted exactly one supply transaction in a
strictly earlier step, never emits a supply and a borrow in the same step,
emits at most one supply and at most one borrow over the whole run, and
advances its phase (`NotSupplied → Supplied → Borrowed`) by at most one
transition per step. -/
theorem borrow_agent_phase_invariants (rate : ℚ) (h0 : 0 < rate) (h1 : rate < 1)
    (a0 : BorrowAgent) (hs : a0.hasSupplied = false) (hb : a0.hasBorrowed = false)
    (hrate : a0.activationRate = rate) (inputs : List BorrowStepInput) :
    (∀ i ts, (runBorrow a0 inputs).2.get? i = some ts →
      (∃ tx ∈ ts, Tx.isBorrow tx = true) →
      (((runBorrow a0 inputs).2.take i).join.countP Tx.isSupply = 1)) ∧
    ((runBorrow a0 inputs).2.join.countP Tx.isSupply ≤ 1) ∧
    ((runBorrow a0 inputs).2.join.countP Tx.isBorrow ≤ 1) ∧
    (∀ ts ∈ (runBorrow a0 inputs).2,
      ¬((∃ tx ∈ ts, Tx.isSupply tx = true) ∧ (∃ tx ∈ ts, Tx.isBorrow tx = true))) ∧
    (∀ (pre : List BorrowStepInput) (i : BorrowStepInput),
      BorrowAgent.phase (runBorrow a0 pre).1 ≤
        BorrowAgent.phase (BorrowAgent.update i.env (runBorrow a0 pre).1 i.r i.u).1 ∧
      BorrowAgent.phase (BorrowAgent.update i.env (runBorrow a0 pre).1 i.r i.u).1 ≤
        BorrowAgent.phase (runBorrow a0 pre).1 + 1) := by
  have hsupTotal : (runBorrow a0 inputs).2.join.countP Tx.isSupply ≤ 1 := by
    rw [runBorrow_countSupply inputs a0, hs]
    cases (runBorrow a0 inputs).1.hasSupplied <;> simp
  have hborTotal : (runBorrow a0 inputs).2.join.countP Tx.isBorrow ≤ 1 := by
    rw [runBorrow_countBorrow inputs a0, hb]
    cases (runBorrow a0 inputs).1.hasBorrowed <;> simp
  refine ⟨?_, hsupTotal, hborTotal, ?_, ?_⟩
  · intro i ts hget hborrow
    rcases runBorrow_borrow_after_supply inputs a0 i ts hget hborrow with h | ⟨j, hj, ts', hget', tx, htx, hsup⟩
    · rw [hs] at h; cases h
    · have hmemtake : ts' ∈ (runBorrow a0 inputs).2.take i := by
        refine List.get?_mem (n := j) ?_
        rw [List.get?_take hj]
        exact hget'
      have hpos : 0 < ((runBorrow a0 inputs).2.take i).join.countP Tx.isSupply := by
        rw [List.countP_pos]
        exact ⟨tx, List.mem_join.mpr ⟨ts', hmemtake, htx⟩, hsup⟩
      have hle := countP_join_prefix_le Tx.isSupply
        ((runBorrow a0 inputs).2.take i) ((runBorrow a0 inputs).2.drop i)
      rw [List.take_append_drop] at hle
      omega
  · intro ts hmem ⟨hsup, hbor⟩
    obtain ⟨env, b, r, u, rfl⟩ := runBorrow_mem_step inputs a0 ts hmem
    exact (borrowUpdate_step env b r u).2.2.2.2.2.2.2 ⟨hsup, hbor⟩
  · intro pre i
    refine borrowUpdate_phase i.env (runBorrow a0 pre).1 i.r i.u ?_
    exact runBorrow_inv pre a0 (fun h => absurd h (by simp [hb]))

/-- Concrete borrow agent and step input for the C6 witness. -/
def borrowAgW : BorrowAgent where
  address := 1
  poolAddress := 2
  oracleAddress := 8
  tokenA := 3
  tokenB := 4
  decimalsTokenB := 6
  hasBorrowed := false
  hasSupplied := false
  activationRate := 1 / 2
  step := 0

/-- Witness for C6: a one-step run of the concrete borrow agent with
activation rate `1/2` emits at most one supply transaction. -/
theorem borrow_agent_phase_invariants_witness :
    (runBorrow borrowAgW [⟨envW, 0, 9500⟩]).2.join.countP Tx.isSupply ≤ 1 :=
  (borrow_agent_phase_invariants (1 / 2) (by norm_num) (by norm_num) borrowAgW rfl rfl
    rfl [⟨envW, 0, 9500⟩]).2.1
